import Mathlib

/-!
Verification of the SSH CPython mediator (`thonny/plugins/cpython_ssh/cps_back.py`).

The mediator (`SshCPythonBackend`) sits between a local controller and a remote
worker process.  This file gives a shallow embedding of its operations:

* `forward_main_responses` — the relay loop body (`_forward_main_responses`),
  modelled as a pure function over the list of lines read from the worker's
  stdout (an empty string models `readline` returning EOF).
* `upload_main_backend` — the deployment decision of `_upload_main_backend`,
  over an abstract remote state recording whether the deployment directory
  exists.
* `handle_immediate_command` — the straight-line event sequence of
  `_handle_immediate_command`.
* `handle_normal_command` — the command router (`_handle_normal_command`),
  producing the list of externally visible events and the updated mediator
  state, or a Python-level exception.
* `forward_incoming_command` — the framing of `_forward_incoming_command`.
* a small labelled transition system for `_restart_main_backend` interleaved
  with the relay thread, and one for the `_response_lock` critical sections.
-/

/-- `_looks_like_echo` (source line 108-109): `line.startswith("^B")`, i.e.
the line's characters begin with `'^'` followed by `'B'`. -/
def looks_like_echo (line : String) : Bool :=
  match line.data with
  | '^' :: 'B' :: _ => true
  | _ => false

/-- The relay loop body of `_forward_main_responses` (source lines 97-106),
as a pure function of the freshness flag (`_main_backend_is_fresh`) and the
list of strings successively returned by `self._proc.stdout.readline()`
(`""` models end-of-stream).  Returns the lines written to the controller's
stdout, in order, together with the final freshness flag. -/
def forward_main_responses : Bool → List String → List String × Bool
  | fr, [] => ([], fr)
  | fr, l :: rest =>
    if fr && looks_like_echo l then
      forward_main_responses fr rest
    else if l = "" then
      ([], fr)
    else
      let r := forward_main_responses false rest
      (l :: r.1, r.2)

/-- Remote host state relevant to `_upload_main_backend`: whether the remote
deployment directory (`_get_remote_program_directory()`) exists, i.e. whether
`_get_stat_mode_for_upload(launch_dir)` is truthy. -/
structure RemoteDeployState where
  dirExists : Bool
deriving DecidableEq

/-- `_upload_main_backend` (source lines 143-180): skips when the directory
exists and the version does not end with `"-dev"`; otherwise ensures the
directory tree and uploads the files.  Returns the new remote state and
whether an upload was performed. -/
def upload_main_backend (version : String) (s : RemoteDeployState) :
    RemoteDeployState × Bool :=
  if s.dirExists && !(version.endsWith "-dev") then
    (s, false)
  else
    (⟨true⟩, true)

/-- Externally visible actions of `_handle_immediate_command`. -/
inductive IEvent
  /-- `SshMixin._handle_immediate_command(self, cmd)` — delegation to the
  remote-shell session's own interrupt mechanism. -/
  | sshInterrupt
  /-- entering `with self._interrupt_lock`. -/
  | acquireInterruptLock
  /-- `interrupt_local_process()`. -/
  | localInterrupt
  /-- `self._proc.stdin.write(s)` outside normal command framing. -/
  | writeStdinRaw (s : String)
  /-- leaving `with self._interrupt_lock`. -/
  | releaseInterruptLock
deriving DecidableEq

/-- `_handle_immediate_command` (source lines 68-74), as its straight-line
sequence of externally visible actions. -/
def handle_immediate_command : List IEvent :=
  [IEvent.sshInterrupt, IEvent.acquireInterruptLock, IEvent.localInterrupt,
    IEvent.writeStdinRaw "\x03", IEvent.releaseInterruptLock]

/-- C2: with the freshness flag set, an echo-heuristic line is dropped without
clearing the flag; the first non-echo, non-empty line is written and clears the
flag; with the flag cleared, every line (echo-looking ones included) is
written, as long as the stream has not reached EOF. -/
theorem echo_suppression_fresh_window :
    (∀ (l : String) (rest : List String), looks_like_echo l = true →
      forward_main_responses true (l :: rest) = forward_main_responses true rest) ∧
    (∀ (l : String) (rest : List String), looks_like_echo l = false → l ≠ "" →
      forward_main_responses true (l :: rest) =
        (l :: (forward_main_responses false rest).1,
          (forward_main_responses false rest).2)) ∧
    (∀ lines : List String, "" ∉ lines →
      (forward_main_responses false lines).1 = lines) := by
  refine ⟨?_, ?_, ?_⟩
  · intro l rest h
    simp [forward_main_responses, h]
  · intro l rest h hne
    have hfe : looks_like_echo l ≠ true := by simp [h]
    simp [forward_main_responses, h, hne]
  · intro lines h
    induction lines with
    | nil => simp [forward_main_responses]
    | cons l rest ih =>
      simp only [List.mem_cons, not_or] at h
      have hne : l ≠ "" := fun hl => h.1 hl.symm
      simp [forward_main_responses, hne, ih h.2]

/-- Witness for `echo_suppression_fresh_window` at concrete lines. -/
theorem echo_suppression_fresh_window_witness :
    forward_main_responses true ("^Becho" :: ["hello", "^Blater"]) =
      forward_main_responses true ["hello", "^Blater"] ∧
    forward_main_responses true ("hello" :: ["^Blater"]) =
      ("hello" :: (forward_main_responses false ["^Blater"]).1,
        (forward_main_responses false ["^Blater"]).2) ∧
    (forward_main_responses false ["^Blater"]).1 = ["^Blater"] :=
  ⟨echo_suppression_fresh_window.1 "^Becho" _ (by decide),
   echo_suppression_fresh_window.2.1 "hello" _ (by decide) (by decide),
   echo_suppression_fresh_window.2.2 ["^Blater"] (by decide)⟩

/-- C4: the upload is skipped exactly when the deployment directory exists and
the version does not end in `"-dev"`; after any call the directory exists, so
a second call uploads exactly when the version is a development build; a call
on a host without the directory always uploads. -/
theorem deploy_idempotent_unless_dev (version : String) (s : RemoteDeployState) :
    ((upload_main_backend version s).2 = false ↔
      (s.dirExists = true ∧ version.endsWith "-dev" = false)) ∧
    (upload_main_backend version s).2 =
      (!s.dirExists || version.endsWith "-dev") ∧
    (upload_main_backend version s).1.dirExists = true ∧
    (upload_main_backend version
      (upload_main_backend version s).1).2 = version.endsWith "-dev" ∧
    (upload_main_backend version ⟨false⟩).2 = true := by
  obtain ⟨d⟩ := s
  cases d <;> cases hv : version.endsWith "-dev" <;>
    simp [upload_main_backend, hv]

/-- C8: the interrupt dispatcher first delegates to the remote-shell session's
interrupt mechanism, then under the interrupt lock delivers both a local
interrupt and the single raw control byte ASCII 3 to the worker's stdin; the
only raw byte ever written is `"\x03"`. -/
theorem interrupt_dual_delivery :
    handle_immediate_command.head? = some IEvent.sshInterrupt ∧
    handle_immediate_command.indexOf IEvent.acquireInterruptLock <
      handle_immediate_command.indexOf IEvent.localInterrupt ∧
    handle_immediate_command.indexOf IEvent.localInterrupt <
      handle_immediate_command.indexOf (IEvent.writeStdinRaw "\x03") ∧
    handle_immediate_command.indexOf (IEvent.writeStdinRaw "\x03") <
      handle_immediate_command.indexOf IEvent.releaseInterruptLock ∧
    IEvent.localInterrupt ∈ handle_immediate_command ∧
    IEvent.writeStdinRaw "\x03" ∈ handle_immediate_command ∧
    (∀ s : String, IEvent.writeStdinRaw s ∈ handle_immediate_command ↔ s = "\x03") ∧
    ("\x03").data = [Char.ofNat 3] := by
  refine ⟨by decide, by decide, by decide, by decide, by decide, by decide, ?_, by decide⟩
  intro s
  simp [handle_immediate_command]

/-- Python-level exceptions the router itself can raise (before any handler
runs): indexing `cmd.name[0]` on an empty name raises `IndexError`. -/
inductive PyExc
  | indexError
deriving DecidableEq

/-- A controller command (`thonny.common.CommandToBackend`): a name plus
string-valued payload fields; `cmd["expected_cwd"]` / `"expected_cwd" in cmd`
are modelled by an association-list lookup. -/
structure CommandToBackend where
  name : String
  args : List (String × String)
deriving DecidableEq

/-- `cmd[k]` when present: association-list lookup on the payload. -/
def getArg (cmd : CommandToBackend) (k : String) : Option String :=
  cmd.args.lookup k

/-- The mediator state touched by `_handle_normal_command`: `self._cwd` and
`self._main_backend_is_fresh`. -/
structure MState where
  cwd : String
  fresh : Bool
deriving DecidableEq

/-- A local handler's outcome as seen at line 58-61: either a normal response
value or `{"error": str(e)}` built from a caught exception. -/
inductive RespVal (α : Type)
  | ok (v : α)
  | errorDict (msg : String)

/-- `response = handler(cmd)` with `except Exception as e: response =
{"error": str(e)}` (source lines 58-61): an exception with message `e` becomes
the error-dict response. -/
def respondVal {α : Type} : Except String α → RespVal α
  | Except.ok v => RespVal.ok v
  | Except.error e => RespVal.errorDict e

/-- Externally visible events of `_handle_normal_command`. -/
inductive HEvent (β : Type)
  /-- `self._cwd = cmd["expected_cwd"]`. -/
  | setCwd (d : String)
  /-- `self._restart_main_backend()`. -/
  | restartBackend
  /-- `self.send_message(...)` — a direct response to the controller. -/
  | sendMessage (m : β)
  /-- `self._forward_incoming_command(cmd)` — forwarded to the worker. -/
  | forwardCmd (c : CommandToBackend)

/-- `true` exactly on the restart event. -/
def isRestartEv {β : Type} : HEvent β → Bool
  | HEvent.restartBackend => true
  | _ => false

/-- `_handle_normal_command` (source lines 49-66).  `handlers` models
`getattr(self, "_cmd_" + cmd.name, None)` (the SFTP methods of `SshMixin`,
outside this file); a handler returns `Except.error e` when it raises an
exception with message `e`.  `prepare` models `_prepare_command_response`
(from `BaseBackend`).  Returns the emitted events and the updated state, or
the Python exception raised before any of them. -/
def handle_normal_command {α β : Type}
    (handlers : String → Option (CommandToBackend → Except String α))
    (prepare : RespVal α → CommandToBackend → β)
    (st : MState) (cmd : CommandToBackend) :
    Except PyExc (List (HEvent β) × MState) :=
  match cmd.name.data with
  | [] => Except.error PyExc.indexError
  | c :: _ =>
    let pre : List (HEvent β) × MState :=
      if c.isUpper then
        match getArg cmd "expected_cwd" with
        | some d => ([HEvent.setCwd d, HEvent.restartBackend], ⟨d, true⟩)
        | none => ([HEvent.restartBackend], ⟨st.cwd, true⟩)
      else ([], st)
    match handlers cmd.name with
    | some handler =>
      Except.ok
        (pre.1 ++ [HEvent.sendMessage (prepare (respondVal (handler cmd)) cmd)],
          pre.2)
    | none =>
      Except.ok (pre.1 ++ [HEvent.forwardCmd cmd], pre.2)

/-- C3: a command whose name begins with an uppercase letter performs exactly
one restart before any further processing; an `expected_cwd` field is adopted
as the mediator's cwd before the restart event; the post-state has the
freshness flag set. -/
theorem uppercase_restarts_once {α β : Type}
    (handlers : String → Option (CommandToBackend → Except String α))
    (prepare : RespVal α → CommandToBackend → β)
    (st : MState) (cmd : CommandToBackend) (c : Char) (cs : List Char)
    (hname : cmd.name.data = c :: cs) (hup : c.isUpper = true) :
    ∃ evs st', handle_normal_command handlers prepare st cmd = Except.ok (evs, st') ∧
      evs.countP isRestartEv = 1 ∧
      st'.fresh = true ∧
      (∀ d, getArg cmd "expected_cwd" = some d →
        st'.cwd = d ∧ ∃ tail, evs = HEvent.setCwd d :: HEvent.restartBackend :: tail ∧
          tail.countP isRestartEv = 0) ∧
      (getArg cmd "expected_cwd" = none →
        ∃ tail, evs = HEvent.restartBackend :: tail ∧
          tail.countP isRestartEv = 0) := by
  unfold handle_normal_command
  rw [hname]
  simp only [hup, if_true]
  cases hcw : getArg cmd "expected_cwd" with
  | none =>
    cases hh : handlers cmd.name with
    | none =>
      refine ⟨_, _, rfl, ?_, rfl, ?_, ?_⟩
      · simp [List.countP_cons, isRestartEv]
      · intro d hd; simp [hcw] at hd
      · intro _
        exact ⟨[HEvent.forwardCmd cmd], rfl, by simp [List.countP_cons, isRestartEv]⟩
    | some handler =>
      refine ⟨_, _, rfl, ?_, rfl, ?_, ?_⟩
      · simp [List.countP_cons, isRestartEv]
      · intro d hd; simp [hcw] at hd
      · intro _
        exact ⟨[HEvent.sendMessage (prepare (respondVal (handler cmd)) cmd)], rfl,
          by simp [List.countP_cons, isRestartEv]⟩
  | some d =>
    cases hh : handlers cmd.name with
    | none =>
      refine ⟨_, _, rfl, ?_, rfl, ?_, ?_⟩
      · simp [List.countP_cons, isRestartEv]
      · intro d' hd'
        cases hd'
        exact ⟨rfl, [HEvent.forwardCmd cmd], rfl, by simp [List.countP_cons, isRestartEv]⟩
      · intro hnone; simp at hnone
    | some handler =>
      refine ⟨_, _, rfl, ?_, rfl, ?_, ?_⟩
      · simp [List.countP_cons, isRestartEv]
      · intro d' hd'
        cases hd'
        exact ⟨rfl, [HEvent.sendMessage (prepare (respondVal (handler cmd)) cmd)], rfl,
          by simp [List.countP_cons, isRestartEv]⟩
      · intro hnone; simp at hnone

/-- Witness for `uppercase_restarts_once` on `{"name": "Execute",
"expected_cwd": "/proj"}`. -/
theorem uppercase_restarts_once_witness :
    ∃ (evs : List (HEvent Nat)) (st' : MState),
      handle_normal_command
        (fun _ => (none : Option (CommandToBackend → Except String Nat)))
        (fun _ _ => (0 : Nat))
        ⟨"/home", false⟩ ⟨"Execute", [("expected_cwd", "/proj")]⟩ =
          Except.ok (evs, st') ∧
      evs.countP isRestartEv = 1 ∧
      st'.fresh = true ∧
      (∀ d, getArg ⟨"Execute", [("expected_cwd", "/proj")]⟩ "expected_cwd" = some d →
        st'.cwd = d ∧ ∃ tail, evs = HEvent.setCwd d :: HEvent.restartBackend :: tail ∧
          tail.countP isRestartEv = 0) ∧
      (getArg ⟨"Execute", [("expected_cwd", "/proj")]⟩ "expected_cwd" = none →
        ∃ tail, evs = HEvent.restartBackend :: tail ∧
          tail.countP isRestartEv = 0) :=
  uppercase_restarts_once (α := Nat) (fun _ => none) (fun _ _ => 0)
    ⟨"/home", false⟩ ⟨"Execute", [("expected_cwd", "/proj")]⟩ 'E' "xecute".data
    (by decide) (by decide)

/-- C5: when the command's name matches a local handler, the router returns
normally (no exception escapes past the handler), never forwards the command
to the worker, and sends exactly one direct response to the controller — the
prepared form of the handler's result, where a handler failure with message
`e` becomes the error dict `{"error": e}` (`respondVal (.error e)`). -/
theorem local_handler_reply_and_survival {α β : Type}
    (handlers : String → Option (CommandToBackend → Except String α))
    (prepare : RespVal α → CommandToBackend → β)
    (st : MState) (cmd : CommandToBackend) (c : Char) (cs : List Char)
    (hname : cmd.name.data = c :: cs)
    (h : CommandToBackend → Except String α)
    (hh : handlers cmd.name = some h) :
    (∀ e : String, respondVal (α := α) (Except.error e) = RespVal.errorDict e) ∧
    ∃ pre st', handle_normal_command handlers prepare st cmd =
        Except.ok (pre ++ [HEvent.sendMessage (prepare (respondVal (h cmd)) cmd)], st') ∧
      (∀ cc, HEvent.forwardCmd cc ∉ pre) ∧
      (∀ m, HEvent.sendMessage m ∉ pre) := by
  refine ⟨fun e => rfl, ?_⟩
  unfold handle_normal_command
  rw [hname, hh]
  by_cases hup : c.isUpper
  · simp only [hup, if_true]
    cases hcw : getArg cmd "expected_cwd" with
    | none => exact ⟨[HEvent.restartBackend], _, rfl, by simp, by simp⟩
    | some d =>
      exact ⟨[HEvent.setCwd d, HEvent.restartBackend], _, rfl, by simp, by simp⟩
  · simp only [hup, if_false]
    exact ⟨[], _, rfl, by simp, by simp⟩

/-- Witness for `local_handler_reply_and_survival` with a throwing
`stat_path` handler. -/
theorem local_handler_reply_witness :
    (∀ e : String, respondVal (α := Nat) (Except.error e) = RespVal.errorDict e) ∧
    ∃ pre st', handle_normal_command
        (fun n => if n = "stat_path"
          then some (fun _ => (Except.error "boom" : Except String Nat))
          else none)
        (fun r _ => r)
        ⟨"/home", true⟩ ⟨"stat_path", []⟩ =
        Except.ok (pre ++ [HEvent.sendMessage
          (respondVal (Except.error "boom" : Except String Nat))], st') ∧
      (∀ cc, HEvent.forwardCmd cc ∉ pre) ∧
      (∀ m, HEvent.sendMessage m ∉ pre) :=
  local_handler_reply_and_survival
    (fun n => if n = "stat_path"
      then some (fun _ => (Except.error "boom" : Except String Nat))
      else none)
    (fun r _ => r) ⟨"/home", true⟩ ⟨"stat_path", []⟩ 's' "tat_path".data
    (by decide) (fun _ => (Except.error "boom" : Except String Nat)) (by simp)

/-- C9: a command whose name is uppercase-initial and also has a local handler
both restarts the worker (exactly once) and is answered locally: a direct
response is sent and the command is never forwarded to the worker. -/
theorem uppercase_and_local_handler {α β : Type}
    (handlers : String → Option (CommandToBackend → Except String α))
    (prepare : RespVal α → CommandToBackend → β)
    (st : MState) (cmd : CommandToBackend) (c : Char) (cs : List Char)
    (hname : cmd.name.data = c :: cs) (hup : c.isUpper = true)
    (h : CommandToBackend → Except String α)
    (hh : handlers cmd.name = some h) :
    ∃ evs st', handle_normal_command handlers prepare st cmd = Except.ok (evs, st') ∧
      evs.countP isRestartEv = 1 ∧
      HEvent.sendMessage (prepare (respondVal (h cmd)) cmd) ∈ evs ∧
      (∀ cc, HEvent.forwardCmd cc ∉ evs) := by
  unfold handle_normal_command
  rw [hname, hh]
  simp only [hup, if_true]
  cases hcw : getArg cmd "expected_cwd" with
  | none =>
    exact ⟨_, _, rfl, by simp [List.countP_cons, isRestartEv], by simp, by simp⟩
  | some d =>
    exact ⟨_, _, rfl, by simp [List.countP_cons, isRestartEv], by simp, by simp⟩

/-- Witness for `uppercase_and_local_handler` on a command named `"Stat"`. -/
theorem uppercase_and_local_handler_witness :
    ∃ (evs : List (HEvent (RespVal Nat))) (st' : MState),
      handle_normal_command
        (fun _ => some (fun _ => (Except.ok 7 : Except String Nat)))
        (fun r _ => r) ⟨"/home", false⟩ ⟨"Stat", []⟩ = Except.ok (evs, st') ∧
      evs.countP isRestartEv = 1 ∧
      HEvent.sendMessage (respondVal (Except.ok 7 : Except String Nat)) ∈ evs ∧
      (∀ cc, HEvent.forwardCmd cc ∉ evs) :=
  uppercase_and_local_handler
    (fun _ => some (fun _ => (Except.ok 7 : Except String Nat)))
    (fun r _ => r) ⟨"/home", false⟩ ⟨"Stat", []⟩ 'S' "tat".data
    (by decide) (by decide) _ rfl

/-- C10: a command with an empty name raises `IndexError` at the
classification step (`cmd.name[0]`), before any restart, local handling or
forwarding: the router's result is the exception and no event is produced. -/
theorem empty_name_raises_index_error {α β : Type}
    (handlers : String → Option (CommandToBackend → Except String α))
    (prepare : RespVal α → CommandToBackend → β)
    (st : MState) (args : List (String × String)) :
    handle_normal_command handlers prepare st ⟨"", args⟩ =
      Except.error PyExc.indexError := rfl

/-- Python `str.splitlines(keepends=True)` over the line boundaries `"\r\n"`,
`"\r"` and `"\n"` (the only boundaries the codec's serialized text can
contain), on character lists: split after each boundary, keeping it.  `acc`
holds the current line's characters in reverse. -/
def splitlinesKeepAux : List Char → List Char → List (List Char)
  | [], [] => []
  | [], acc => [acc.reverse]
  | '\r' :: '\n' :: cs, acc => (acc.reverse ++ ['\r', '\n']) :: splitlinesKeepAux cs []
  | '\r' :: cs, acc => (acc.reverse ++ ['\r']) :: splitlinesKeepAux cs []
  | '\n' :: cs, acc => (acc.reverse ++ ['\n']) :: splitlinesKeepAux cs []
  | c :: cs, acc => splitlinesKeepAux cs (c :: acc)

/-- `msg_str.splitlines(keepends=True)` (source line 83). -/
def splitlinesKeep (s : String) : List String :=
  (splitlinesKeepAux s.data []).map String.mk

/-- Actions on the worker's stdin performed by `_forward_incoming_command`. -/
inductive WEvent
  | writeStdin (s : String)
  | flushStdin
deriving DecidableEq

/-- `_forward_incoming_command` (source lines 80-87): serialize the message
with per-line chunk size 1024 (`serialize_message(msg, 1024)`, with the codec
`serialize_message` of `thonny.common` abstract), write each line of
`splitlines(keepends=True)` followed by a flush, then write one extra
newline. -/
def forward_incoming_command {γ : Type} (serialize : γ → Nat → String)
    (msg : γ) : List WEvent :=
  ((splitlinesKeep (serialize msg 1024)).flatMap
      fun line => [WEvent.writeStdin line, WEvent.flushStdin])
    ++ [WEvent.writeStdin "\n"]

/-- The characters written to the worker's stdin by a list of events. -/
def writtenChars (evs : List WEvent) : List Char :=
  evs.foldr
    (fun e acc =>
      match e with
      | WEvent.writeStdin s => s.data ++ acc
      | WEvent.flushStdin => acc)
    []

/-- `true` exactly on the flush event. -/
def isFlushEv : WEvent → Bool
  | WEvent.flushStdin => true
  | _ => false

/-- Splitting with kept line ends loses nothing: joining the pieces restores
the original character list. -/
theorem splitlinesKeepAux_join :
    ∀ (cs acc : List Char), (splitlinesKeepAux cs acc).flatten = acc.reverse ++ cs := by
  intro cs acc
  induction cs, acc using splitlinesKeepAux.induct <;>
    simp [splitlinesKeepAux, *]

/-- Characters written by a line/flush block followed by a tail. -/
theorem writtenChars_flatMap (lines : List (List Char)) (tail : List WEvent) :
    writtenChars
        (((lines.map String.mk).flatMap
            fun line => [WEvent.writeStdin line, WEvent.flushStdin]) ++ tail) =
      lines.flatten ++ writtenChars tail := by
  induction lines with
  | nil => simp [writtenChars]
  | cons l ls ih =>
    simp only [List.map_cons, List.flatMap_cons, List.flatten_cons,
      List.append_assoc, List.cons_append, List.nil_append]
    simpa [writtenChars] using congrArg (l ++ ·) ih

/-- Flush count of a line/flush block: one flush per line. -/
theorem countP_flush_flatMap (lines : List String) :
    (lines.flatMap fun line => [WEvent.writeStdin line, WEvent.flushStdin]).countP
      isFlushEv = lines.length := by
  induction lines with
  | nil => simp
  | cons l ls ih => simp [List.countP_cons, isFlushEv, ih]

/-- C7: the outgoing frame is the codec's serialization at chunk size 1024
followed by one extra newline — the split-into-lines writes concatenate back
to exactly the serialized text (no character lost at codec-inserted line
breaks), with one flush per written line; and a lowercase-initial command
with no local handler is only forwarded: the router emits no direct
response. -/
theorem forward_framing_and_passthrough {α β γ : Type}
    (serialize : γ → Nat → String) (msg : γ) :
    writtenChars (forward_incoming_command serialize msg) =
      (serialize msg 1024).data ++ ['\n'] ∧
    (∀ s : String, (splitlinesKeepAux s.data []).flatten = s.data) ∧
    (forward_incoming_command serialize msg).countP isFlushEv =
      (splitlinesKeep (serialize msg 1024)).length ∧
    (∀ (handlers : String → Option (CommandToBackend → Except String α))
      (prepare : RespVal α → CommandToBackend → β) (st : MState)
      (cmd : CommandToBackend) (c : Char) (cs : List Char),
      cmd.name.data = c :: cs → c.isUpper = false → handlers cmd.name = none →
      handle_normal_command handlers prepare st cmd =
        Except.ok ([HEvent.forwardCmd cmd], st)) := by
  refine ⟨?_, ?_, ?_, ?_⟩
  · have h := writtenChars_flatMap (splitlinesKeepAux (serialize msg 1024).data [])
      [WEvent.writeStdin "\n"]
    simp only [forward_incoming_command, splitlinesKeep]
    rw [h, splitlinesKeepAux_join]
    simp [writtenChars]
  · intro s
    simpa using splitlinesKeepAux_join s.data []
  · simp only [forward_incoming_command, List.countP_append,
      countP_flush_flatMap, splitlinesKeep]
    simp [List.countP_cons, isFlushEv]
  · intro handlers prepare st cmd c cs hname hup hh
    unfold handle_normal_command
    rw [hname, hh]
    simp [hup]

/-- Witness for `forward_framing_and_passthrough` on a two-line serialization
and the command `{"name": "run_x"}`. -/
theorem forward_framing_witness :
    writtenChars (forward_incoming_command (fun (_ : Nat) _ => "ab\ncd") 0) =
      ("ab\ncd").data ++ ['\n'] ∧
    handle_normal_command
        (fun _ => (none : Option (CommandToBackend → Except String Nat)))
        (fun _ _ => (0 : Nat)) ⟨"/home", true⟩ ⟨"run_x", []⟩ =
      Except.ok ([HEvent.forwardCmd ⟨"run_x", []⟩], ⟨"/home", true⟩) :=
  ⟨(forward_framing_and_passthrough (α := Nat) (β := Nat)
      (fun (_ : Nat) _ => "ab\ncd") 0).1,
   (forward_framing_and_passthrough (α := Nat) (β := Nat)
      (fun (_ : Nat) _ => "ab\ncd") 0).2.2.2
     (fun _ => none) (fun _ _ => 0) ⟨"/home", true⟩ ⟨"run_x", []⟩ 'r' "un_x".data
     (by decide) (by decide) rfl⟩

/-- Handle id of the worker process live when `_restart_main_backend` is
entered. -/
def oldHandle : Nat := 0

/-- Handle id of the worker process created by the restart's
`_start_main_backend()` call. -/
def newHandle : Nat := 1

/-- State of the mediator during `_restart_main_backend` (source lines
131-136) interleaved with the relay thread `_forward_main_responses`:
`pc` is the restart's program counter (0 = before `self._proc.kill()`,
1 = after `self._proc = None`, 2 = after `self._response_forwarder.join()`,
3 = after `self._proc = self._start_main_backend()`, 4 = after
`self._start_response_forwarder()`, i.e. restart returned); `proc` is
`self._proc` as a handle id; `relay` is the handle whose stdout the live
relay thread is bound to (`none` = relay thread terminated). -/
structure RSt where
  pc : Nat
  proc : Option Nat
  relay : Option Nat
deriving DecidableEq

/-- Observable events while restarting. -/
inductive REvent
  /-- `self._proc.kill()` followed by `self._proc = None`. -/
  | killEv
  /-- `self._response_forwarder.join()` returning. -/
  | joinEv
  /-- `self._proc = self._start_main_backend()`. -/
  | spawnEv
  /-- `self._start_response_forwarder()`. -/
  | startRelayEv
  /-- the relay thread relays one line read from handle `h`'s stdout to the
  controller. -/
  | relayLineEv (h : Nat) (line : String)
  /-- the relay thread's loop terminates (loop guard false or EOF). -/
  | relayExitEv
deriving DecidableEq

/-- Interleaved small-step semantics of the restart sequence and the relay
thread.  `join` is enabled only once the relay thread has terminated
(`Thread.join` blocks until then).  The relay may still emit buffered lines
of the handle it is bound to at any time before it terminates, and may
terminate at any time — a superset of the real schedules, so safety results
carry over. -/
inductive RStep : RSt → REvent → RSt → Prop
  | kill (h : Nat) (r : Option Nat) :
      RStep ⟨0, some h, r⟩ REvent.killEv ⟨1, none, r⟩
  | join : RStep ⟨1, none, none⟩ REvent.joinEv ⟨2, none, none⟩
  | spawn (p r : Option Nat) :
      RStep ⟨2, p, r⟩ REvent.spawnEv ⟨3, some newHandle, r⟩
  | startRelay (p : Option Nat) (r : Option Nat) :
      RStep ⟨3, p, r⟩ REvent.startRelayEv ⟨4, p, p⟩
  | relayLine (s : RSt) (h : Nat) (line : String) :
      s.relay = some h → RStep s (REvent.relayLineEv h line) s
  | relayExit (s : RSt) (h : Nat) :
      s.relay = some h → RStep s REvent.relayExitEv ⟨s.pc, s.proc, none⟩

/-- Execution: a list of events taking one state to another. -/
inductive RExec : RSt → List REvent → RSt → Prop
  | nil (s : RSt) : RExec s [] s
  | cons {s s₁ s₂ : RSt} {e : REvent} {tr : List REvent} :
      RStep s e s₁ → RExec s₁ tr s₂ → RExec s (e :: tr) s₂

/-- State at which `_restart_main_backend` is entered: the old worker is
current and the relay thread is bound to it. -/
def initRestartState : RSt := ⟨0, some oldHandle, some oldHandle⟩

/-- The four actions of the restart sequence itself (relay-thread events are
not among them). -/
def isMainEv : REvent → Bool
  | REvent.killEv | REvent.joinEv | REvent.spawnEv | REvent.startRelayEv => true
  | _ => false

/-- The restart actions already performed when the program counter is `n`. -/
def pcMainEvents : Nat → List REvent
  | 0 => []
  | 1 => [REvent.killEv]
  | 2 => [REvent.killEv, REvent.joinEv]
  | 3 => [REvent.killEv, REvent.joinEv, REvent.spawnEv]
  | _ => [REvent.killEv, REvent.joinEv, REvent.spawnEv, REvent.startRelayEv]

/-- Invariant: once the relay thread has been joined (`pc ≥ 2`), nothing is
bound to the old handle any more, and from the spawn on the current process
is the new handle. -/
def RInv (s : RSt) : Prop :=
  s.pc ≤ 4 ∧
  (2 ≤ s.pc → s.relay ≠ some oldHandle ∧ s.proc ≠ some oldHandle) ∧
  (s.pc = 3 → s.proc = some newHandle) ∧
  (s.pc = 4 → s.proc = some newHandle)

/-- Every step preserves `RInv`. -/
theorem rstep_inv {s s' : RSt} {e : REvent} (h : RStep s e s') (hi : RInv s) :
    RInv s' := by
  obtain ⟨h4, h2, h3p, h4p⟩ := hi
  cases h with
  | kill h r =>
    refine ⟨by simp, fun hpc => ?_, fun hpc => ?_, fun hpc => ?_⟩ <;> simp at hpc
  | join =>
    exact ⟨by simp, fun _ => ⟨by simp [oldHandle], by simp⟩,
      fun hpc => by simp at hpc, fun hpc => by simp at hpc⟩
  | spawn p r =>
    refine ⟨by simp, fun _ => ⟨?_, by simp [newHandle, oldHandle]⟩,
      fun _ => rfl, fun _ => rfl⟩
    exact (h2 (le_refl _)).1
  | startRelay p r =>
    have hp : p = some newHandle := h3p rfl
    subst hp
    refine ⟨by simp, fun _ => ⟨by simp [newHandle, oldHandle],
      by simp [newHandle, oldHandle]⟩, fun hpc => by simp at hpc, fun _ => rfl⟩
  | relayLine s h line hr => exact ⟨h4, h2, h3p, h4p⟩
  | relayExit s h hr =>
    exact ⟨h4, fun hpc => ⟨by simp, (h2 hpc).2⟩, h3p, h4p⟩

/-- No step decreases the program counter. -/
theorem rstep_pc_mono {s s' : RSt} {e : REvent} (h : RStep s e s') :
    s.pc ≤ s'.pc := by
  cases h <;> simp

/-- `RInv` holds along any execution. -/
theorem rexec_inv {s s' : RSt} {tr : List REvent} (h : RExec s tr s')
    (hi : RInv s) : RInv s' := by
  induction h with
  | nil => exact hi
  | cons hstep _ ih => exact ih (rstep_inv hstep hi)

/-- The program counter never decreases along an execution. -/
theorem rexec_pc_mono {s s' : RSt} {tr : List REvent} (h : RExec s tr s') :
    s.pc ≤ s'.pc := by
  induction h with
  | nil => exact le_refl _
  | cons hstep _ ih => exact le_trans (rstep_pc_mono hstep) ih

/-- The restart actions in an execution are exactly the program-counter
difference: the restart body runs kill, join, spawn, start-relay in this
order and nothing else. -/
theorem rexec_main_filter {s s' : RSt} {tr : List REvent} (h : RExec s tr s') :
    pcMainEvents s.pc ++ tr.filter isMainEv = pcMainEvents s'.pc := by
  induction h with
  | nil => simp
  | cons hstep _ ih =>
    rw [← ih]
    cases hstep <;> simp [pcMainEvents, isMainEv, List.filter_cons]

/-- Once the relay thread has been joined, no line of the old handle can be
relayed any more. -/
theorem rexec_no_old_relay {m s : RSt} {tr : List REvent} (h : RExec m tr s)
    (hi : RInv m) (hpc : 2 ≤ m.pc) :
    ∀ line, REvent.relayLineEv oldHandle line ∉ tr := by
  induction h with
  | nil => intro line; exact List.not_mem_nil _
  | cons hstep htr ih =>
    rename_i s s₁ s₂ e tr'
    intro line hmem
    rcases List.mem_cons.mp hmem with heq | hmem'
    · subst heq
      cases hstep with
      | relayLine _ _ _ hr =>
        exact ((hi.2.1 hpc).1) (by simpa using hr)
    · exact ih (rstep_inv hstep hi) (le_trans hpc (rstep_pc_mono hstep)) line hmem'

/-- C1: in every interleaving of `_restart_main_backend` with the relay
thread, the restart actions occur strictly in the order kill, join-relay,
spawn, start-new-relay (and each only when its predecessor is done); and from
the moment the join has completed — in particular after restart returns — no
line read from the old worker handle's output can ever be relayed again. -/
theorem restart_ordering_no_stale_output :
    (∀ (tr : List REvent) (s : RSt), RExec initRestartState tr s →
      tr.filter isMainEv = pcMainEvents s.pc) ∧
    (∀ (tr1 : List REvent) (m : RSt), RExec initRestartState tr1 m →
      2 ≤ m.pc →
      ∀ (tr2 : List REvent) (s2 : RSt), RExec m tr2 s2 →
        ∀ line, REvent.relayLineEv oldHandle line ∉ tr2) := by
  have hinv : RInv initRestartState := by
    refine ⟨by simp [initRestartState], ?_, ?_, ?_⟩ <;>
      intro h <;> simp_all [initRestartState]
  constructor
  · intro tr s h
    simpa [initRestartState, pcMainEvents] using rexec_main_filter h
  · intro tr1 m h1 hpc tr2 s2 h2 line
    exact rexec_no_old_relay h2 (rexec_inv h1 hinv) hpc line

/-- Witness for `restart_ordering_no_stale_output`: the canonical restart
trace kill, relay-exit, join, spawn, start-relay, followed by the new relay
forwarding one line of the new handle. -/
theorem restart_ordering_witness :
    List.filter isMainEv
        [REvent.killEv, REvent.relayExitEv, REvent.joinEv, REvent.spawnEv,
          REvent.startRelayEv] = pcMainEvents 4 ∧
    ∀ line, REvent.relayLineEv oldHandle line ∉
      [REvent.relayLineEv newHandle "out"] := by
  have h1 : RExec initRestartState
      [REvent.killEv, REvent.relayExitEv, REvent.joinEv, REvent.spawnEv,
        REvent.startRelayEv] (⟨4, some newHandle, some newHandle⟩ : RSt) :=
    RExec.cons (RStep.kill oldHandle (some oldHandle))
      (RExec.cons (RStep.relayExit ⟨1, none, some oldHandle⟩ oldHandle rfl)
        (RExec.cons RStep.join
          (RExec.cons (RStep.spawn none none)
            (RExec.cons (RStep.startRelay (some newHandle) none)
              (RExec.nil _)))))
  have h2 : RExec (⟨4, some newHandle, some newHandle⟩ : RSt)
      [REvent.relayLineEv newHandle "out"]
      (⟨4, some newHandle, some newHandle⟩ : RSt) :=
    RExec.cons (RStep.relayLine _ newHandle "out" rfl) (RExec.nil _)
  exact ⟨restart_ordering_no_stale_output.1 _ _ h1,
    fun line =>
      restart_ordering_no_stale_output.2 _ _ h1 (by decide) _ _ h2 line⟩

/-- Atomic actions of a writer to the controller's stdout. -/
inductive LAction
  /-- acquiring `self._response_lock`. -/
  | lockA
  /-- releasing `self._response_lock`. -/
  | unlockA
  /-- `sys.stdout.write(s)` — part of a message reaches the controller. -/
  | writeOut (s : String)
  /-- `sys.stdout.flush()`. -/
  | flushOut
  /-- `self._main_backend_is_fresh = False`. -/
  | clearFresh
deriving DecidableEq

/-- `send_message` (source lines 76-78): `with self._response_lock:
super().send_message(msg)`.  Modelled from the spec: the inherited
`send_message` of `BaseBackend` (in `thonny.backend`, outside src/) writes
the complete serialized message to the controller's stdout and flushes. -/
def send_message_prog (m : String) : List LAction :=
  [LAction.lockA, LAction.writeOut m, LAction.flushOut, LAction.unlockA]

/-- The relay's write block (source lines 103-106): `with self._response_lock:
sys.stdout.write(line); sys.stdout.flush();
self._main_backend_is_fresh = False`. -/
def relay_write_prog (line : String) : List LAction :=
  [LAction.lockA, LAction.writeOut line, LAction.flushOut, LAction.clearFresh,
    LAction.unlockA]

/-- Joint state of one `send_message` call (main thread, id `false`) and one
relay write block (relay thread, id `true`) contending for
`self._response_lock`: the remaining actions of each and the lock's holder. -/
structure LSt where
  mainProg : List LAction
  relayProg : List LAction
  holder : Option Bool
deriving DecidableEq

/-- Remaining program of thread `t`. -/
def progOf (t : Bool) (s : LSt) : List LAction :=
  bif t then s.relayProg else s.mainProg

/-- Replace thread `t`'s remaining program. -/
def setProg (t : Bool) (p : List LAction) (s : LSt) : LSt :=
  bif t then ⟨s.mainProg, p, s.holder⟩ else ⟨p, s.relayProg, s.holder⟩

/-- Replace the lock holder. -/
def setHolder (h : Option Bool) (s : LSt) : LSt :=
  ⟨s.mainProg, s.relayProg, h⟩

/-- Interleaving semantics: a thread executes its next action; acquiring the
lock requires it free, releasing requires owning it, any other action runs
unconditionally (the lock discipline is in the programs, not the scheduler). -/
inductive LStep : LSt → Bool × LAction → LSt → Prop
  | lockStep (t : Bool) (s : LSt) (rest : List LAction) :
      progOf t s = LAction.lockA :: rest → s.holder = none →
      LStep s (t, LAction.lockA) (setHolder (some t) (setProg t rest s))
  | unlockStep (t : Bool) (s : LSt) (rest : List LAction) :
      progOf t s = LAction.unlockA :: rest → s.holder = some t →
      LStep s (t, LAction.unlockA) (setHolder none (setProg t rest s))
  | passStep (t : Bool) (s : LSt) (a : LAction) (rest : List LAction) :
      progOf t s = a :: rest → a ≠ LAction.lockA → a ≠ LAction.unlockA →
      LStep s (t, a) (setProg t rest s)

/-- Initial state: both writers about to run their critical sections, lock
free. -/
def linit (m line : String) : LSt :=
  ⟨send_message_prog m, relay_write_prog line, none⟩

/-- States reachable from some initial contention state. -/
inductive LReach : LSt → Prop
  | init (m line : String) : LReach (linit m line)
  | step {s s' : LSt} {e : Bool × LAction} : LReach s → LStep s e s' → LReach s'

/-- Thread `t` is inside its critical section: it has executed its `lockA`
(no longer at the head) but not yet run out of program. -/
def inCS (t : Bool) (s : LSt) : Bool :=
  match (progOf t s).head? with
  | some LAction.lockA => false
  | none => false
  | some _ => true

/-- The suffixes of `send_message_prog m` — the positions the main thread's
program can be at. -/
def mainPos (m : String) (p : List LAction) : Prop :=
  p = [LAction.lockA, LAction.writeOut m, LAction.flushOut, LAction.unlockA] ∨
  p = [LAction.writeOut m, LAction.flushOut, LAction.unlockA] ∨
  p = [LAction.flushOut, LAction.unlockA] ∨
  p = [LAction.unlockA] ∨
  p = []

/-- The suffixes of `relay_write_prog line` — the positions the relay
thread's program can be at. -/
def relayPos (line : String) (p : List LAction) : Prop :=
  p = [LAction.lockA, LAction.writeOut line, LAction.flushOut,
        LAction.clearFresh, LAction.unlockA] ∨
  p = [LAction.writeOut line, LAction.flushOut, LAction.clearFresh,
        LAction.unlockA] ∨
  p = [LAction.flushOut, LAction.clearFresh, LAction.unlockA] ∨
  p = [LAction.clearFresh, LAction.unlockA] ∨
  p = [LAction.unlockA] ∨
  p = []

/-- Lock invariant: each program is at one of its positions, and a thread
inside its critical section holds the lock. -/
def LInv (m line : String) (s : LSt) : Prop :=
  mainPos m s.mainProg ∧ relayPos line s.relayProg ∧
  (inCS false s = true → s.holder = some false) ∧
  (inCS true s = true → s.holder = some true)

/-- Every step preserves the lock invariant. -/
theorem lstep_inv {m line : String} {s s' : LSt} {e : Bool × LAction}
    (h : LStep s e s') (hi : LInv m line s) : LInv m line s' := by
  obtain ⟨hm, hl, hf, ht⟩ := hi
  cases h with
  | lockStep t st rest hprog hnone =>
    cases t with
    | false =>
      simp only [progOf, cond_false] at hprog
      rcases hm with h1 | h1 | h1 | h1 | h1
      · rw [h1] at hprog
        simp only [List.cons.injEq, true_and] at hprog
        subst hprog
        refine ⟨by simp [mainPos, setProg, setHolder], hl, fun _ => rfl, fun hcs => ?_⟩
        have h2 := ht hcs
        rw [hnone] at h2
        exact Option.noConfusion h2
      · simp [h1] at hprog
      · simp [h1] at hprog
      · simp [h1] at hprog
      · simp [h1] at hprog
    | true =>
      simp only [progOf, cond_true] at hprog
      rcases hl with h1 | h1 | h1 | h1 | h1 | h1
      · rw [h1] at hprog
        simp only [List.cons.injEq, true_and] at hprog
        subst hprog
        refine ⟨hm, by simp [relayPos, setProg, setHolder], fun hcs => ?_, fun _ => rfl⟩
        have h2 := hf hcs
        rw [hnone] at h2
        exact Option.noConfusion h2
      · simp [h1] at hprog
      · simp [h1] at hprog
      · simp [h1] at hprog
      · simp [h1] at hprog
      · simp [h1] at hprog
  | unlockStep t st rest hprog hown =>
    cases t with
    | false =>
      simp only [progOf, cond_false] at hprog
      rcases hm with h1 | h1 | h1 | h1 | h1
      · simp [h1] at hprog
      · simp [h1] at hprog
      · simp [h1] at hprog
      · rw [h1] at hprog
        simp only [List.cons.injEq, true_and] at hprog
        subst hprog
        refine ⟨by simp [mainPos, setProg, setHolder], hl, fun hcs => ?_, fun hcs => ?_⟩
        · simp [inCS, progOf, setProg, setHolder] at hcs
        · have h2 := ht hcs
          rw [hown] at h2
          simp at h2
      · simp [h1] at hprog
    | true =>
      simp only [progOf, cond_true] at hprog
      rcases hl with h1 | h1 | h1 | h1 | h1 | h1
      · simp [h1] at hprog
      · simp [h1] at hprog
      · simp [h1] at hprog
      · simp [h1] at hprog
      · rw [h1] at hprog
        simp only [List.cons.injEq, true_and] at hprog
        subst hprog
        refine ⟨hm, by simp [relayPos, setProg, setHolder], fun hcs => ?_, fun hcs => ?_⟩
        · have h2 := hf hcs
          rw [hown] at h2
          simp at h2
        · simp [inCS, progOf, setProg, setHolder] at hcs
      · simp [h1] at hprog
  | passStep t st a rest hprog ha hb =>
    cases t with
    | false =>
      simp only [progOf, cond_false] at hprog
      rcases hm with h1 | h1 | h1 | h1 | h1
      · rw [h1] at hprog
        simp only [List.cons.injEq] at hprog
        exact absurd hprog.1.symm ha
      · rw [h1] at hprog
        simp only [List.cons.injEq] at hprog
        obtain ⟨rfl, rfl⟩ := hprog
        exact ⟨by simp [mainPos, setProg, setHolder], hl,
          fun _ => hf (by simp [inCS, progOf, h1]), fun hcs => ht hcs⟩
      · rw [h1] at hprog
        simp only [List.cons.injEq] at hprog
        obtain ⟨rfl, rfl⟩ := hprog
        exact ⟨by simp [mainPos, setProg, setHolder], hl,
          fun _ => hf (by simp [inCS, progOf, h1]), fun hcs => ht hcs⟩
      · rw [h1] at hprog
        simp only [List.cons.injEq] at hprog
        exact absurd hprog.1.symm hb
      · simp [h1] at hprog
    | true =>
      simp only [progOf, cond_true] at hprog
      rcases hl with h1 | h1 | h1 | h1 | h1 | h1
      · rw [h1] at hprog
        simp only [List.cons.injEq] at hprog
        exact absurd hprog.1.symm ha
      · rw [h1] at hprog
        simp only [List.cons.injEq] at hprog
        obtain ⟨rfl, rfl⟩ := hprog
        exact ⟨hm, by simp [relayPos, setProg, setHolder],
          fun hcs => hf hcs, fun _ => ht (by simp [inCS, progOf, h1])⟩
      · rw [h1] at hprog
        simp only [List.cons.injEq] at hprog
        obtain ⟨rfl, rfl⟩ := hprog
        exact ⟨hm, by simp [relayPos, setProg, setHolder],
          fun hcs => hf hcs, fun _ => ht (by simp [inCS, progOf, h1])⟩
      · rw [h1] at hprog
        simp only [List.cons.injEq] at hprog
        obtain ⟨rfl, rfl⟩ := hprog
        exact ⟨hm, by simp [relayPos, setProg, setHolder],
          fun hcs => hf hcs, fun _ => ht (by simp [inCS, progOf, h1])⟩
      · rw [h1] at hprog
        simp only [List.cons.injEq] at hprog
        exact absurd hprog.1.symm hb
      · simp [h1] at hprog

/-- Every reachable contention state satisfies the lock invariant for some
message and line. -/
theorem lreach_inv {s : LSt} (h : LReach s) : ∃ m line, LInv m line s := by
  induction h with
  | init m line =>
    refine ⟨m, line, Or.inl rfl, Or.inl rfl, fun hcs => ?_, fun hcs => ?_⟩ <;>
      simp [inCS, progOf, linit, send_message_prog, relay_write_prog] at hcs
  | step _ hstep ih =>
    obtain ⟨m, line, hi⟩ := ih
    exact ⟨m, line, lstep_inv hstep hi⟩

/-- C6: in every reachable state of the contention between a `send_message`
call and a relay write, any stdout write step and any flush step of a thread
requires that thread to hold the response lock, and the two writers are never
inside their critical sections at the same time — so a direct response and a
relayed line cannot interleave mid-message. -/
theorem output_lock_mutual_exclusion :
    ∀ s : LSt, LReach s →
      (∀ (t : Bool) (d : String) (s' : LSt),
        LStep s (t, LAction.writeOut d) s' → s.holder = some t) ∧
      (∀ (t : Bool) (s' : LSt),
        LStep s (t, LAction.flushOut) s' → s.holder = some t) ∧
      ¬(inCS false s = true ∧ inCS true s = true) := by
  intro s hreach
  obtain ⟨m, line, hm, hl, hf, ht⟩ := lreach_inv hreach
  refine ⟨?_, ?_, ?_⟩
  · intro t d s' hstep
    cases hstep with
    | passStep _ _ _ rest hprog ha hb =>
      cases t with
      | false => exact hf (by simp [inCS, hprog])
      | true => exact ht (by simp [inCS, hprog])
  · intro t s' hstep
    cases hstep with
    | passStep _ _ _ rest hprog ha hb =>
      cases t with
      | false => exact hf (by simp [inCS, hprog])
      | true => exact ht (by simp [inCS, hprog])
  · rintro ⟨hcsf, hcst⟩
    have h1 := hf hcsf
    have h2 := ht hcst
    rw [h1] at h2
    simp at h2

/-- Witness for `output_lock_mutual_exclusion` at the initial contention
state. -/
theorem output_lock_witness :
    ¬(inCS false (linit "msg" "line") = true ∧
      inCS true (linit "msg" "line") = true) :=
  (output_lock_mutual_exclusion _ (LReach.init "msg" "line")).2.2
